import Mathlib

/-!
Verification of the pyxtuml metamodel core (`xtuml/meta.py`, with the older
key-copy engine in `xtuml/model.py` where noted).  Instances are identified by
object identity in the source; here they are represented by natural numbers.
Python's built-in `set`, which `Link` uses for its per-instance neighbor
collections, is unordered; it is modelled as a `Finset`, which captures exactly
the membership structure the source can rely on.  All code is translated from
the source files; comments cite the functions and line ranges they mirror.
-/

namespace Pyxtuml

/-- Instances are compared by identity in the source; a natural number stands
for one object identity. -/
abbrev Inst := Nat

/-- Attribute values.  The source stores Python values; the claims only involve
`None`, booleans, integers (also used for `unique_id` values, which are ints
under the hood), rationals standing for Python floats, and strings. -/
inductive Value where
  | vnone : Value
  | vbool : Bool → Value
  | vint : Int → Value
  | vreal : Rat → Value
  | vstr : String → Value
deriving DecidableEq, Repr

/-- Python truthiness of the values above: `None`, `False`, `0`, `0.0` and the
empty string are falsy. -/
def Value.truthy : Value → Bool
  | .vnone => false
  | .vbool b => b
  | .vint n => n != 0
  | .vreal q => q != 0
  | .vstr s => s != ""

/-- ASCII upper-casing of a character, as Python's `str.upper` does on the
ASCII identifiers the metamodel uses. -/
def upChar (c : Char) : Char :=
  if 'a' ≤ c ∧ c ≤ 'z' then Char.ofNat (c.toNat - 32) else c

/-- `s.upper()` on ASCII identifier strings. -/
def upStr (s : String) : String := ⟨s.data.map upChar⟩

/-- An instance's `__dict__`: attribute name (as declared) to value. -/
abbrev InstDict := List (String × Value)

/-- The ordered attribute list of a metaclass: (name, type name) pairs
(`MetaClass.attributes`). -/
abbrev AttrList := List (String × String)

/-- Lookup in a `__dict__` by exact key. -/
def dictGet (d : InstDict) (name : String) : Option Value :=
  match d with
  | [] => none
  | (k, w) :: rest => if k = name then some w else dictGet rest name

/-- Store into a `__dict__` under an exact key. -/
def dictSet (d : InstDict) (name : String) (v : Value) : InstDict :=
  match d with
  | [] => [(name, v)]
  | (k, w) :: rest => if k = name then (k, v) :: rest else (k, w) :: dictSet rest name v

/-- `Class.__getattr__` (meta.py lines 390-400): scan the declared attributes,
fold case, and read the instance `__dict__` under the declared spelling.  The
fall-through to class-level properties (used for referential attributes) is
modelled separately by `Assoc.fget`. -/
def getInstAttr (attrs : AttrList) (d : InstDict) (name : String) : Option Value :=
  match attrs.find? (fun p => upStr p.1 == upStr name) with
  | some p => dictGet d p.1
  | none => none

/-- `_is_null` (meta.py lines 99-127): truthy values are not null; `None` is
null; otherwise a falsy non-`None` value is null iff the declared type reserves
it (zero for `UNIQUE_ID`, the empty string for `STRING`). -/
def isNull (attrs : AttrList) (d : InstDict) (name : String) : Bool :=
  match getInstAttr attrs d name with
  | none => true
  | some v =>
    if v.truthy then false
    else if v = Value.vnone then true
    else
      match attrs.find? (fun p => upStr p.1 == upStr name) with
      | none => false
      | some p =>
        if upStr p.2 = "UNIQUE_ID" then v == Value.vint 0
        else if upStr p.2 = "STRING" then v == Value.vstr ""
        else false

/-- Cardinality flags of a `Link` (meta.py lines 196-227).  The neighbor dict
itself is threaded separately as a `NbrMap`. -/
structure Link where
  many : Bool
  conditional : Bool
deriving DecidableEq, Repr

/-- The mutable content of one `Link` dict: each instance's neighbor set.  A
missing key and an empty set are observationally identical in the source
(`navigate` returns an empty set for both). -/
abbrev NbrMap := Inst → Finset Inst

/-- `next(iter(s), None)` on a Python set `s`: some element when non-empty.
The source only evaluates this on sets with at most one element (conditional
non-many links), where the choice of representative is immaterial. -/
def pick (s : Finset Inst) : Option Inst :=
  if h : s.Nonempty then some (s.min' h) else none

/-- `Link.connect` (meta.py lines 256-273): already-connected pairs succeed
idempotently; a non-many link with an existing neighbor rejects when `check`
is set; otherwise the neighbor is added. -/
def Link.connect (l : Link) (m : NbrMap) (a b : Inst) (check : Bool) :
    Bool × NbrMap :=
  if b ∈ m a then (true, m)
  else if m a ≠ ∅ ∧ l.many = false ∧ check = true then (false, m)
  else (true, Function.update m a (insert b (m a)))

/-- `Link.disconnect` (meta.py lines 275-286): removing an absent neighbor
(or from an absent key) returns false; otherwise the neighbor is removed. -/
def Link.disconnect (m : NbrMap) (a b : Inst) : Bool × NbrMap :=
  if b ∈ m a then (true, Function.update m a ((m a).erase b))
  else (false, m)

/-- `Link.navigate` (meta.py lines 288-295): the instance's neighbor set,
empty when the instance is not a key of the link dict. -/
def Link.navigate (m : NbrMap) (a : Inst) : Finset Inst := m a

/-- An `Association` (meta.py lines 130-148) as relate/unrelate use it: the
two opposing links.  The key lists live in `Assoc.fget` below. -/
structure Assoc where
  sourceLink : Link
  targetLink : Link
deriving DecidableEq, Repr

/-- The mutable state of an association: the two link dicts.  `src` is the
`source_link` dict (independent-side instance to dependent-side neighbors) and
`tgt` the `target_link` dict (dependent-side instance to independent-side
neighbors), following the orientation `_find_link` establishes. -/
structure AssocState where
  src : NbrMap
  tgt : NbrMap

/-- Result of `relate`/`unrelate`: a returned value, or a raised
`RelateException`/`UnrelateException`. -/
inductive MetaResult where
  | ok : Bool → MetaResult
  | raised : MetaResult
deriving DecidableEq, Repr

/-- `relate` (meta.py lines 942-962) after `_find_link` has oriented the pair:
connect on the source link, raising on rejection, then connect on the target
link, raising on rejection; a raise after the first connect leaves the edge it
added in place.  The `None`-argument early return is not modelled: `a` and `b`
are identities of existing instances. -/
def relate (ass : Assoc) (st : AssocState) (a b : Inst) :
    MetaResult × AssocState :=
  let r1 := ass.sourceLink.connect st.src a b true
  if r1.1 = false then (MetaResult.raised, { st with src := r1.2 })
  else
    let r2 := ass.targetLink.connect st.tgt b a true
    if r2.1 = false then (MetaResult.raised, { src := r1.2, tgt := r2.2 })
    else (MetaResult.ok true, { src := r1.2, tgt := r2.2 })

/-- `unrelate` (meta.py lines 965-985) after `_find_link`: disconnect on both
links, raising on either failure. -/
def unrelate (ass : Assoc) (st : AssocState) (a b : Inst) :
    MetaResult × AssocState :=
  let r1 := Link.disconnect st.src a b
  if r1.1 = false then (MetaResult.raised, { st with src := r1.2 })
  else
    let r2 := Link.disconnect st.tgt b a
    if r2.1 = false then (MetaResult.raised, { src := r1.2, tgt := r2.2 })
    else (MetaResult.ok true, { src := r1.2, tgt := r2.2 })

/-- The `fget` closure installed by `Association.formalize` (meta.py lines
177-179): follow the target link from the dependent instance to its (at most
one) neighbor and read the independent side's identifying attribute, with
`getattr(None, ref_name, None)` yielding `None` when unrelated. -/
def Assoc.fget (st : AssocState) (dicts : Inst → InstDict) (attrs : AttrList)
    (inst : Inst) (refName : String) : Value :=
  match pick (st.tgt inst) with
  | none => Value.vnone
  | some i => (getInstAttr attrs (dicts i) refName).getD Value.vnone

/-- A key of the per-metaclass query cache (`MetaClass.cache`, a dict from
frozen predicate sets to `Query` objects).  The claims only concern presence
of entries, so keys are opaque. -/
abbrev CacheKey := Nat

/-- The mutable state of one metaclass that `new`/`delete` touch: the instance
pool (`self.storage`, an ordered list) and the query cache, together with one
of its links' neighbor dict (`self.links[...]`, which `delete` never
references). -/
structure MCState where
  storage : List Inst
  cache : List CacheKey
  linkNbr : NbrMap

/-- `MetaClass.delete` (meta.py lines 626-635): remove the instance from the
pool and clear the query cache, or raise `DeleteException` when it is not in
the pool.  The body references only `self.storage` and `self.cache`. -/
def MetaClass.delete (mc : MCState) (x : Inst) : Except Unit MCState :=
  if x ∈ mc.storage then
    Except.ok { mc with storage := mc.storage.erase x, cache := [] }
  else Except.error ()

/-- `Class.__setattr__` (meta.py lines 402-410): when the (case-folded) name is
a declared attribute, write under the declared spelling and clear the
metaclass's query cache; otherwise write the raw name and leave the cache. -/
def Class.setattr (attrs : AttrList) (d : InstDict) (cache : List CacheKey)
    (name : String) (v : Value) : InstDict × List CacheKey :=
  match attrs.find? (fun p => upStr p.1 == upStr name) with
  | some p => (dictSet d p.1 v, [])
  | none => (dictSet d name v, cache)

/-- `MetaClass.default_value` (meta.py lines 533-556): primitive defaults, with
`UNIQUE_ID` drawing from the metamodel's id generator (`nextId`) or `None`
without one, and unknown type names raising `MetaException`. -/
def MetaClass.default_value (nextId : Option Value) (ty : String) :
    Except Unit Value :=
  if upStr ty = "BOOLEAN" then Except.ok (Value.vbool false)
  else if upStr ty = "INTEGER" then Except.ok (Value.vint 0)
  else if upStr ty = "REAL" then Except.ok (Value.vreal 0)
  else if upStr ty = "STRING" then Except.ok (Value.vstr "")
  else if upStr ty = "UNIQUE_ID" then Except.ok (nextId.getD Value.vnone)
  else Except.error ()

/-- The defaulting loop of `MetaClass.new` (meta.py lines 566-571): assign each
non-referential attribute its default.  The `setattr` calls it performs clear
the (already cleared) cache. -/
def applyDefaults (nextId : Option Value) (refAttrs : List String)
    (d : InstDict) : AttrList → Except Unit InstDict
  | [] => Except.ok d
  | (n, ty) :: rest =>
    if n ∈ refAttrs then applyDefaults nextId refAttrs d rest
    else
      match MetaClass.default_value nextId ty with
      | Except.error e => Except.error e
      | Except.ok v => applyDefaults nextId refAttrs (dictSet d n v) rest

/-- The argument-assignment loops of `MetaClass.new` (lines 573-586) on the
path where no supplied name is referential: plain `setattr` per pair. -/
def applyArgs (d : InstDict) : List (String × Value) → InstDict
  | [] => d
  | (n, v) :: rest => applyArgs (dictSet d n v) rest

/-- `MetaClass.new` (meta.py lines 558-610) restricted to the early-return path
taken when no positional or named argument names a referential attribute
(`referential_attributes` stays empty, line 588 returns).  The cache is
cleared on entry (line 562), the fresh instance appended to the pool, defaults
and arguments assigned; a `default_value` failure raises after the pool and
cache mutations have happened.  `args` carries the positional arguments
already zipped with the attribute names they bind to. -/
def MetaClass.newNonRef (attrs : AttrList) (nextId : Option Value)
    (refAttrs : List String) (mc : MCState) (fresh : Inst)
    (args : List (String × Value)) (kwargs : List (String × Value)) :
    MCState × Except Unit InstDict :=
  let mc1 : MCState :=
    { mc with storage := mc.storage ++ [fresh], cache := [] }
  match applyDefaults nextId refAttrs [] attrs with
  | Except.error e => (mc1, Except.error e)
  | Except.ok d0 => (mc1, Except.ok (applyArgs (applyArgs d0 args) kwargs))

/-- The engine state seen by a `relate`/`unrelate` call: the two link dicts of
the resolved association plus the query caches of the two metaclasses
involved.  The body of `relate` (meta.py lines 942-962) references the caches
nowhere. -/
structure EngineState where
  links : AssocState
  cacheA : List CacheKey
  cacheB : List CacheKey

/-- `relate` at engine level: delegates to the link connects; the query caches
of both metaclasses are untouched by the source. -/
def relateE (ass : Assoc) (es : EngineState) (a b : Inst) :
    MetaResult × EngineState :=
  let r := relate ass es.links a b
  (r.1, { es with links := r.2 })

/-- `unrelate` at engine level: as `relateE`, the caches are untouched. -/
def unrelateE (ass : Assoc) (es : EngineState) (a b : Inst) :
    MetaResult × EngineState :=
  let r := unrelate ass es.links a b
  (r.1, { es with links := r.2 })

/-- The composite key under which `MetaClass.add_link` (meta.py lines 486-494)
registers a link: the target kind is upper-folded, the rel id and phrase are
stored verbatim. -/
def MetaClass.linkKey (toKind relId phrase : String) :
    String × String × String :=
  (upStr toKind, relId, phrase)

/-- Association-list lookup used to model the `self.links` dict. -/
def lookupKey (links : List ((String × String × String) × Nat))
    (key : String × String × String) : Option Nat :=
  match links with
  | [] => none
  | (k, v) :: rest => if k = key then some v else lookupKey rest key

/-- `MetaClass.find_link` (meta.py lines 496-505) for a string rel id: fold the
kind to upper case and look the triple up; the rel id and phrase participate
verbatim (only an integer rel id is normalised, to `R<n>`). -/
def MetaClass.find_link (links : List ((String × String × String) × Nat))
    (kind relId phrase : String) : Option Nat :=
  lookupKey links (upStr kind, relId, phrase)

/-- One conjunct of the query predicate (meta.py line 330): the attribute
equals the wanted value and is not null. -/
def matchInst (attrs : AttrList) (dicts : Inst → InstDict)
    (items : List (String × Value)) (i : Inst) : Bool :=
  items.all fun nv =>
    (getInstAttr attrs (dicts i) nv.1 == some nv.2) &&
      !(isNull attrs (dicts i) nv.1)

/-- The paused state of a `Query` (meta.py lines 306-350): the part of the
instance pool snapshot the evaluation generator has not reached
(`remaining`), and the matches materialised so far (`self.result`). -/
structure QueryState where
  remaining : List Inst
  result : List Inst
deriving DecidableEq, Repr

/-- A freshly constructed `Query` (meta.py lines 315-319): empty result, the
generator positioned at the start of the pool. -/
def Query.fresh (storage : List Inst) : QueryState :=
  { remaining := storage, result := [] }

/-- Pulling up to `k` further matches out of the evaluation generator
(meta.py lines 321-334): scan the pool, skipping non-matches; each match is
yielded and the scan pauses right after it; exhausting the pool ends the
generator. -/
def runTake (P : Inst → Bool) : Nat → List Inst → List Inst × List Inst
  | _, [] => ([], [])
  | 0, l => ([], l)
  | k + 1, x :: rest =>
    if P x then
      let r := runTake P k rest
      (x :: r.1, r.2)
    else runTake P (k + 1) rest

/-- Running the evaluation generator to exhaustion (the full loop of
`Query.evaluate`). -/
def runAll (P : Inst → Bool) : List Inst → List Inst
  | [] => []
  | x :: rest => if P x then x :: runAll P rest else runAll P rest

/-- The storage prefix the generator has consumed after yielding up to `k`
matches: it ends exactly at the `k`-th match (or is the whole pool when fewer
matches exist). -/
def consumedPart (P : Inst → Bool) : Nat → List Inst → List Inst
  | _, [] => []
  | 0, _ => []
  | k + 1, x :: rest =>
    if P x then x :: consumedPart P k rest
    else x :: consumedPart P (k + 1) rest

/-- Consuming `k` items from `Query.execute` (meta.py lines 338-350): replay
the materialised result first, then pull the evaluation generator, which
appends each new match to the result. -/
def Query.consume (P : Inst → Bool) (k : Nat) (q : QueryState) :
    List Inst × QueryState :=
  let replayed := q.result.take k
  let r := runTake P (k - q.result.length) q.remaining
  (replayed ++ r.1, { remaining := r.2, result := q.result ++ r.1 })

/-- Iterating `Query.execute` to completion from a paused state: the
materialised result is replayed, then the generator runs to exhaustion. -/
def Query.executeAll (P : Inst → Bool) (q : QueryState) : List Inst :=
  q.result ++ runAll P q.remaining

/-- `navigate_one(inst).nav(kind, rel_id, phrase)()` along one link dict: the
first element of the neighbor set, `None` when empty (meta.py lines 754-765).
Deterministic here because the claims apply it to conditional links whose
neighbor sets have at most one element. -/
def navOneNav (m : NbrMap) (i : Inst) : Option Inst := pick (m i)

/-- The body of the `while` loop in `sort_reflexive`'s `sequence_generator`
(meta.py lines 903-910): yield the current instance, step across the opposing
phrase, stop on `None` or on returning to the head.  The Python loop is
unbounded; `fuel` bounds it here, and the theorems show the set's size is
enough fuel on the chains and cycles of the claim. -/
def seqFrom (m : NbrMap) (first : Inst) : Nat → Inst → List Inst
  | 0, _ => []
  | fuel + 1, inst =>
    inst ::
      match navOneNav m inst with
      | none => []
      | some nxt => if nxt = first then [] else seqFrom m first fuel nxt

/-- `sequence_generator` (meta.py lines 903-910): chain the walks started at
each candidate head. -/
def seqGen (m : NbrMap) (fuel : Nat) (firsts : List Inst) : List Inst :=
  (firsts.map fun f => seqFrom m f fuel f).flatten

/-- `QuerySet`'s `OrderedSet` constructor on a generator: keep the first
occurrence of each element. -/
def firstDedupAux (seen : List Inst) : List Inst → List Inst
  | [] => []
  | x :: xs =>
    if x ∈ seen then firstDedupAux seen xs
    else x :: firstDedupAux (x :: seen) xs

/-- `sort_reflexive` (meta.py lines 865-912) with the opposing-phrase link
already resolved: `predM` is the neighbor dict of the link for the given
phrase and `succM` that of the opposing phrase.  Candidate heads are the
members with no neighbor across `predM`, in set order; when none exist the
set's first member starts the walk. -/
def sortReflexive (xs : List Inst) (predM succM : NbrMap) (fuel : Nat) :
    List Inst :=
  match xs with
  | [] => []
  | x :: _ =>
    let firsts := xs.filter fun i => (navOneNav predM i).isNone
    let firsts := if firsts.isEmpty then [x] else firsts
    firstDedupAux [] (seqGen succM fuel firsts)

/-- Chain shape along the opposing phrase: each member's successor set is
exactly the singleton of the next member, the last member has none. -/
def succChain (m : NbrMap) : List Inst → Prop
  | [] => True
  | [x] => m x = ∅
  | x :: y :: rest => m x = {y} ∧ succChain m (y :: rest)

/-- Chain shape along the given phrase: each member's predecessor set is
exactly the singleton of the previous member. -/
def predChainAux (m : NbrMap) : List Inst → Prop
  | [] => True
  | [_] => True
  | x :: y :: rest => m y = {x} ∧ predChainAux m (y :: rest)

/-- Cycle shape along the opposing phrase: as `succChain`, but the last member
points back at `first`. -/
def succChainTo (m : NbrMap) (first : Inst) : List Inst → Prop
  | [] => True
  | [x] => m x = {first}
  | x :: y :: rest => m x = {y} ∧ succChainTo m first (y :: rest)

/-! Concrete inputs used by witnesses and counterexamples. -/

/-- The everywhere-empty link dict. -/
def emptyNbr : NbrMap := fun _ => ∅

/-- A non-many, non-conditional link. -/
def linkOne : Link := ⟨false, false⟩

/-- A many link. -/
def linkMany : Link := ⟨true, false⟩

/-- A one-to-one association. -/
def assOneOne : Assoc := ⟨linkOne, linkOne⟩

/-- An association whose source link is many and whose target link is not. -/
def assManyOne : Assoc := ⟨linkMany, linkOne⟩

/-- Both link dicts empty. -/
def st0 : AssocState := ⟨emptyNbr, emptyNbr⟩

/-- Instance 2 already has the neighbor 3 on the target link. -/
def st9 : AssocState := ⟨emptyNbr, fun i => if i = 2 then {3} else ∅⟩

/-- The state after relating 0 to 1 in `st0` across `assOneOne`. -/
def st2demo : AssocState := (relate assOneOne st0 0 1).2

/-- Instance 1 carries `id = 42`. -/
def demoDicts : Inst → InstDict :=
  fun i => if i = 1 then [("id", Value.vint 42)] else []

/-- A single identifying attribute of type `UNIQUE_ID`. -/
def attrsB : AttrList := [("id", "UNIQUE_ID")]

/-- An engine state whose first metaclass has the cached query key 7. -/
def es0 : EngineState := ⟨st0, [7], []⟩

/-- A link table holding one link registered for kind `D`, rel id `R1` and
phrase `next`. -/
def demoLinks : List ((String × String × String) × Nat) :=
  [(MetaClass.linkKey "D" "R1" "next", 0)]

/-- A metaclass pool [1, 2] with a cached query key and 2 related to 1. -/
def mc0 : MCState := ⟨[1, 2], [5], fun i => if i = 2 then {1} else ∅⟩

/-- Predecessor dict of the chain 1 → 2 → 3. -/
def pm8 : NbrMap := fun i => if i = 2 then {1} else if i = 3 then {2} else ∅

/-- Successor dict of the chain 1 → 2 → 3. -/
def sm8 : NbrMap := fun i => if i = 1 then {2} else if i = 2 then {3} else ∅

/-! Helper lemmas. -/

/-- A connect that returns true leaves the target in the neighbor set. -/
theorem connect_mem_of_true {l : Link} {m : NbrMap} {a b : Inst} {ch : Bool}
    (h : (Link.connect l m a b ch).1 = true) :
    b ∈ (Link.connect l m a b ch).2 a := by
  unfold Link.connect at *
  by_cases h1 : b ∈ m a
  · simp [h1]
  · by_cases h2 : m a ≠ ∅ ∧ l.many = false ∧ ch = true
    · simp [h1, h2] at h
    · simp [h1, h2]

/-- Connecting an already-present neighbor is the identity. -/
theorem connect_of_mem {l : Link} {m : NbrMap} {a b : Inst} {ch : Bool}
    (h : b ∈ m a) : Link.connect l m a b ch = (true, m) := by
  simp [Link.connect, h]

/-! Theorems for the claims. -/

/-- C1: across a non-many link, once `relate(a, b1)` has succeeded a second
`relate(a, b2)` with `b2 ≠ b1` raises `RelateException`, and `Link.connect`
with `check` set returns false whenever the instance already has a neighbor it
is not being reconnected to. -/
theorem c1_nonmany_second_relate_raises
    (ass : Assoc) (st : AssocState) (a b1 b2 : Inst)
    (hmany : ass.sourceLink.many = false) (hne : b1 ≠ b2)
    (ha : st.src a = ∅) (hb : st.tgt b1 = ∅) :
    (relate ass st a b1).1 = MetaResult.ok true ∧
    (relate ass (relate ass st a b1).2 a b2).1 = MetaResult.raised ∧
    (∀ (l : Link) (m : NbrMap) (x y : Inst),
      l.many = false → m x ≠ ∅ → y ∉ m x →
      Link.connect l m x y true = (false, m)) := by
  refine ⟨?_, ?_, ?_⟩
  · simp [relate, Link.connect, ha, hb]
  · simp only [relate, Link.connect, ha, hb]
    simp [Function.update_same, hne.symm, hmany]
  · intro l m x y h1 h2 h3
    simp [Link.connect, h1, h2, h3]

/-- C1 witness at a = 0, b1 = 1, b2 = 2 in the empty one-to-one state. -/
theorem c1_witness :
    (relate assOneOne st0 0 1).1 = MetaResult.ok true ∧
    (relate assOneOne (relate assOneOne st0 0 1).2 0 2).1
      = MetaResult.raised ∧
    Link.connect linkOne (fun i => if i = 0 then {1} else ∅) 0 2 true
      = (false, fun i => if i = 0 then {1} else ∅) := by
  have h := c1_nonmany_second_relate_raises assOneOne st0 0 1 2
    (by decide) (by decide) rfl rfl
  exact ⟨h.1, h.2.1, h.2.2 linkOne _ 0 2 (by decide) (by decide) (by decide)⟩

/-- C2: a second `relate` between an already related pair returns true,
raises nothing and leaves the link state untouched (idempotent connect). -/
theorem c2_relate_idempotent
    (ass : Assoc) (st st1 : AssocState) (a b : Inst)
    (h : relate ass st a b = (MetaResult.ok true, st1)) :
    relate ass st1 a b = (MetaResult.ok true, st1) := by
  unfold relate at h
  by_cases h1 : (ass.sourceLink.connect st.src a b true).1 = false
  · simp [h1] at h
  · by_cases h2 : (ass.targetLink.connect st.tgt b a true).1 = false
    · simp [h1, h2] at h
    · simp only [h1, h2, if_neg, if_pos, ite_false] at h
      have hst1 : st1 = ⟨(ass.sourceLink.connect st.src a b true).2,
          (ass.targetLink.connect st.tgt b a true).2⟩ := by
        cases h' : relate ass st a b
        exact (Prod.mk.injEq _ _ _ _ |>.mp h.symm).2.symm ▸ rfl
      have hmem1 : b ∈ st1.src a := by
        rw [hst1]
        exact connect_mem_of_true (Bool.not_eq_false _ |>.mp h1)
      have hmem2 : a ∈ st1.tgt b := by
        rw [hst1]
        exact connect_mem_of_true (Bool.not_eq_false _ |>.mp h2)
      unfold relate
      rw [connect_of_mem hmem1, connect_of_mem hmem2]
      simp

/-- C2 witness: relating 0 and 1 again after a successful relate. -/
theorem c2_witness :
    relate assOneOne st2demo 0 1 = (MetaResult.ok true, st2demo) := by
  refine c2_relate_idempotent assOneOne st0 st2demo 0 1 ?_
  show relate assOneOne st0 0 1 = (MetaResult.ok true, (relate assOneOne st0 0 1).2)
  have : (relate assOneOne st0 0 1).1 = MetaResult.ok true := by
    simp [relate, Link.connect, st0, emptyNbr, assOneOne, linkOne]
  exact Prod.ext this rfl

/-- C9: when the source-side connect of `relate` succeeds and the target-side
connect is rejected by the cardinality check, `relate` raises while the edge
added to the source link stays: navigation from `a` now reaches `b` although
it did not before the failed call, and the target link is unchanged. -/
theorem c9_relate_not_atomic
    (ass : Assoc) (st : AssocState) (a b : Inst)
    (hmem : b ∉ st.src a)
    (hok : ass.sourceLink.many = true ∨ st.src a = ∅)
    (htm : ass.targetLink.many = false)
    (htne : st.tgt b ≠ ∅)
    (htmem : a ∉ st.tgt b) :
    (relate ass st a b).1 = MetaResult.raised ∧
    Link.navigate (relate ass st a b).2.src a = insert b (st.src a) ∧
    b ∈ Link.navigate (relate ass st a b).2.src a ∧
    b ∉ Link.navigate st.src a ∧
    (relate ass st a b).2.tgt = st.tgt := by
  have hsrc : ass.sourceLink.connect st.src a b true
      = (true, Function.update st.src a (insert b (st.src a))) := by
    rcases hok with hm | he
    · simp [Link.connect, hmem, hm]
    · simp [Link.connect, hmem, he]
  have htgt : ass.targetLink.connect st.tgt b a true = (false, st.tgt) := by
    simp [Link.connect, htmem, htne, htm]
  refine ⟨?_, ?_, ?_, ?_, ?_⟩
  · simp [relate, hsrc, htgt]
  · simp [relate, hsrc, htgt, Link.navigate]
  · simp [relate, hsrc, htgt, Link.navigate]
  · simpa [Link.navigate] using hmem
  · simp [relate, hsrc, htgt]

/-- C9 witness: source link many, target link non-many with 2 already bound
to 3; relating 0 to 2 raises and leaves the dangling source edge. -/
theorem c9_witness :
    (relate assManyOne st9 0 2).1 = MetaResult.raised ∧
    Link.navigate (relate assManyOne st9 0 2).2.src 0
      = insert 2 (st9.src 0) ∧
    2 ∈ Link.navigate (relate assManyOne st9 0 2).2.src 0 ∧
    2 ∉ Link.navigate st9.src 0 ∧
    (relate assManyOne st9 0 2).2.tgt = st9.tgt :=
  c9_relate_not_atomic assManyOne st9 0 2 (by decide) (Or.inl rfl)
    rfl (by decide) (by decide)

/-- C10: `MetaClass.delete` on a pooled instance succeeds, removes it from the
pool and clears the query cache, but leaves every link dict unchanged: an
instance `y` that navigated to `x` before the delete still does. -/
theorem c10_delete_keeps_links
    (mc : MCState) (x y : Inst)
    (hx : x ∈ mc.storage) (hnd : mc.storage.Nodup)
    (hy : x ∈ Link.navigate mc.linkNbr y) :
    ∃ mc2, MetaClass.delete mc x = Except.ok mc2 ∧
      x ∉ mc2.storage ∧ mc2.cache = [] ∧ mc2.linkNbr = mc.linkNbr ∧
      x ∈ Link.navigate mc2.linkNbr y := by
  refine ⟨{ mc with storage := mc.storage.erase x, cache := [] },
    by simp [MetaClass.delete, hx], ?_, rfl, rfl, hy⟩
  have h1 : mc.storage.count x = 1 := List.count_eq_one_of_mem hnd hx
  have h0 : (mc.storage.erase x).count x = 0 := by
    rw [List.count_erase_self, h1]
  simpa using List.count_eq_zero.mp h0

/-- C10 witness: deleting 1 from the pool [1, 2] keeps 2's neighbor 1. -/
theorem c10_witness :
    ∃ mc2, MetaClass.delete mc0 1 = Except.ok mc2 ∧
      (1 : Inst) ∉ mc2.storage ∧ mc2.cache = [] ∧ mc2.linkNbr = mc0.linkNbr ∧
      (1 : Inst) ∈ Link.navigate mc2.linkNbr 2 :=
  c10_delete_keeps_links mc0 1 2 (by decide) (by decide) (by decide)

/-- C3 counterexample: `relate` succeeds between 0 and 1 while the query key 7
cached on the first metaclass before the call is still cached afterwards —
`relate` does not clear any query cache. -/
theorem c3_relate_keeps_cache_cx :
    (relateE assOneOne es0 0 1).1 = MetaResult.ok true ∧
    (7 : CacheKey) ∈ (relateE assOneOne es0 0 1).2.cacheA := by
  constructor
  · simp [relateE, relate, Link.connect, es0, st0, emptyNbr, assOneOne, linkOne]
  · simp [relateE, es0]

/-- C3 (amended): attribute writes to a declared attribute, `delete` and `new`
clear the affected metaclass's query cache before returning, but `relate` and
`unrelate` leave every query cache exactly as it was. -/
theorem c3_cache_discipline
    (attrs : AttrList) (d : InstDict) (cache : List CacheKey)
    (name : String) (v : Value) (mc : MCState) (x : Inst)
    (nextId : Option Value) (refAttrs : List String) (fresh : Inst)
    (args kwargs : List (String × Value))
    (ass : Assoc) (es es2 : EngineState) (a b a2 b2 : Inst)
    (hdecl : (attrs.find? fun p => upStr p.1 == upStr name).isSome = true)
    (hx : x ∈ mc.storage) :
    (Class.setattr attrs d cache name v).2 = [] ∧
    (∃ mc2, MetaClass.delete mc x = Except.ok mc2 ∧ mc2.cache = []) ∧
    (MetaClass.newNonRef attrs nextId refAttrs mc fresh args kwargs).1.cache
      = [] ∧
    (relateE ass es a b).2.cacheA = es.cacheA ∧
    (relateE ass es a b).2.cacheB = es.cacheB ∧
    (unrelateE ass es2 a2 b2).2.cacheA = es2.cacheA ∧
    (unrelateE ass es2 a2 b2).2.cacheB = es2.cacheB := by
  refine ⟨?_, ?_, ?_, rfl, rfl, rfl, rfl⟩
  · obtain ⟨p, hp⟩ := Option.isSome_iff_exists.mp hdecl
    simp [Class.setattr, hp]
  · exact ⟨{ mc with storage := mc.storage.erase x, cache := [] },
      by simp [MetaClass.delete, hx], rfl⟩
  · unfold MetaClass.newNonRef
    cases applyDefaults nextId refAttrs [] attrs <;> rfl

/-- C3 witness for the amended claim at concrete inputs. -/
theorem c3_witness :
    (Class.setattr [("NAME", "STRING")] [] [3] "name" (Value.vstr "x")).2
      = [] ∧
    (∃ mc2, MetaClass.delete mc0 1 = Except.ok mc2 ∧ mc2.cache = []) ∧
    (MetaClass.newNonRef [("NAME", "STRING")] none [] mc0 9 [] []).1.cache
      = [] ∧
    (relateE assOneOne es0 0 1).2.cacheA = es0.cacheA ∧
    (relateE assOneOne es0 0 1).2.cacheB = es0.cacheB ∧
    (unrelateE assOneOne es0 0 1).2.cacheA = es0.cacheA ∧
    (unrelateE assOneOne es0 0 1).2.cacheB = es0.cacheB :=
  c3_cache_discipline [("NAME", "STRING")] [] [3] "name" (Value.vstr "x")
    mc0 1 none [] 9 [] [] assOneOne es0 es0 0 1 0 1 (by decide) (by decide)

/-- C4 counterexample: with `id` declared `UNIQUE_ID` and 2 related to 1
(which carries `id = 42`), the referential read on 2 equals 42; after
`unrelate` it reads the absent marker `None`, which is not the zero that the
claim's null representation of `UNIQUE_ID` prescribes. -/
theorem c4_unrelate_reads_none_cx :
    (relate assOneOne st0 1 2).1 = MetaResult.ok true ∧
    Assoc.fget (relate assOneOne st0 1 2).2 demoDicts attrsB 2 "id"
      = Value.vint 42 ∧
    (unrelate assOneOne (relate assOneOne st0 1 2).2 1 2).1
      = MetaResult.ok true ∧
    Assoc.fget (unrelate assOneOne (relate assOneOne st0 1 2).2 1 2).2
      demoDicts attrsB 2 "id" = Value.vnone ∧
    Value.vnone ≠ Value.vint 0 := by
  refine ⟨?_, ?_, ?_, ?_, by decide⟩ <;>
    simp [relate, unrelate, Link.connect, Link.disconnect, Assoc.fget, pick,
      st0, emptyNbr, assOneOne, linkOne, demoDicts, attrsB, getInstAttr,
      dictGet, upStr, upChar]

/-- C4 (amended): after a successful `relate`, the dependent side's
referential attribute reads equal to the identifying attribute of the
independent side; after a successful `unrelate` it reads the absent marker
`None` (null, but not the typed zero/empty-string null representation). -/
theorem c4_referential_reads
    (ass : Assoc) (st : AssocState) (dicts : Inst → InstDict)
    (attrs : AttrList) (p d : Inst) (ref : String)
    (hsp : st.src p = ∅) (htd : st.tgt d = ∅) :
    (relate ass st p d).1 = MetaResult.ok true ∧
    Assoc.fget (relate ass st p d).2 dicts attrs d ref
      = (getInstAttr attrs (dicts p) ref).getD Value.vnone ∧
    (unrelate ass (relate ass st p d).2 p d).1 = MetaResult.ok true ∧
    Assoc.fget (unrelate ass (relate ass st p d).2 p d).2 dicts attrs d ref
      = Value.vnone := by
  have hrel : relate ass st p d
      = (MetaResult.ok true,
         ⟨Function.update st.src p (insert d (st.src p)),
          Function.update st.tgt d (insert p (st.tgt d))⟩) := by
    simp [relate, Link.connect, hsp, htd]
  refine ⟨by rw [hrel], ?_, ?_, ?_⟩
  · rw [hrel]
    simp [Assoc.fget, htd, pick]
  · rw [hrel]
    simp [unrelate, Link.disconnect, hsp, htd]
  · rw [hrel]
    simp [unrelate, Link.disconnect, Assoc.fget, hsp, htd, pick]

/-- C4 witness for the amended claim at the concrete schema of the
counterexample. -/
theorem c4_witness :
    (relate assOneOne st0 1 2).1 = MetaResult.ok true ∧
    Assoc.fget (relate assOneOne st0 1 2).2 demoDicts attrsB 2 "id"
      = (getInstAttr attrsB (demoDicts 1) "id").getD Value.vnone ∧
    (unrelate assOneOne (relate assOneOne st0 1 2).2 1 2).1
      = MetaResult.ok true ∧
    Assoc.fget (unrelate assOneOne (relate assOneOne st0 1 2).2 1 2).2
      demoDicts attrsB 2 "id" = Value.vnone :=
  c4_referential_reads assOneOne st0 demoDicts attrsB 1 2 "id" rfl rfl

/-- C7: `find_link` folds only the kind to upper case; a lookup whose rel id
or phrase differs in letter case from the registered key fails, although the
kind itself may be given in any case. -/
theorem c7_find_link_case_sensitivity :
    MetaClass.find_link demoLinks "d" "R1" "next" = some 0 ∧
    MetaClass.find_link demoLinks "d" "r1" "next" = none ∧
    MetaClass.find_link demoLinks "D" "R1" "NEXT" = none := by
  decide

/-- Running the evaluation generator to exhaustion yields the filtered pool. -/
theorem runAll_eq_filter (P : Inst → Bool) :
    ∀ l : List Inst, runAll P l = l.filter P := by
  intro l
  induction l with
  | nil => rfl
  | cons x rest ih =>
    by_cases h : P x <;> simp [runAll, List.filter, h, ih]

/-- The matches pulled while consuming `k` items are the first `k` matches of
the pool. -/
theorem runTake_fst (P : Inst → Bool) :
    ∀ (l : List Inst) (k : Nat), (runTake P k l).1 = (l.filter P).take k := by
  intro l
  induction l with
  | nil => intro k; simp [runTake]
  | cons x rest ih =>
    intro k
    cases k with
    | zero => simp [runTake]
    | succ k =>
      by_cases h : P x <;> simp [runTake, List.filter, h, ih]

/-- The generator pauses right after the `k`-th match: the consumed prefix and
the untouched remainder reassemble the pool. -/
theorem consumedPart_append (P : Inst → Bool) :
    ∀ (l : List Inst) (k : Nat),
      consumedPart P k l ++ (runTake P k l).2 = l := by
  intro l
  induction l with
  | nil => intro k; simp [runTake, consumedPart]
  | cons x rest ih =>
    intro k
    cases k with
    | zero => simp [runTake, consumedPart]
    | succ k =>
      by_cases h : P x <;> simp [runTake, consumedPart, h, ih]

/-- The matches still hidden in the paused remainder are exactly the matches
beyond the `k`-th. -/
theorem runTake_snd_filter (P : Inst → Bool) :
    ∀ (l : List Inst) (k : Nat),
      (runTake P k l).2.filter P = (l.filter P).drop k := by
  intro l
  induction l with
  | nil => intro k; simp [runTake]
  | cons x rest ih =>
    intro k
    cases k with
    | zero => simp [runTake]
    | succ k =>
      by_cases h : P x <;> simp [runTake, List.filter, h, ih]

/-- C5: consuming only the first `k` matches of a fresh `Query` yields the
first `k` matches of the pool, materialises exactly those `k`, leaves the pool
suffix beyond the `k`-th match unevaluated, and a subsequent `execute()` on
the same paused `Query` yields the whole match sequence from the start by
replaying the materialised prefix and resuming the generator. -/
theorem c5_query_lazy_replay
    (attrs : AttrList) (dicts : Inst → InstDict)
    (items : List (String × Value)) (storage : List Inst) (k : Nat) :
    (Query.consume (matchInst attrs dicts items) k (Query.fresh storage)).1
        = (runAll (matchInst attrs dicts items) storage).take k ∧
    (Query.consume (matchInst attrs dicts items) k
        (Query.fresh storage)).2.result
        = (runAll (matchInst attrs dicts items) storage).take k ∧
    consumedPart (matchInst attrs dicts items) k storage ++
        (Query.consume (matchInst attrs dicts items) k
          (Query.fresh storage)).2.remaining
        = storage ∧
    Query.executeAll (matchInst attrs dicts items)
        (Query.consume (matchInst attrs dicts items) k
          (Query.fresh storage)).2
        = runAll (matchInst attrs dicts items) storage := by
  refine ⟨?_, ?_, ?_, ?_⟩
  · simp [Query.consume, Query.fresh, runTake_fst, runAll_eq_filter]
  · simp [Query.consume, Query.fresh, runTake_fst, runAll_eq_filter]
  · simp [Query.consume, Query.fresh, consumedPart_append]
  · simp [Query.consume, Query.fresh, Query.executeAll, runTake_fst,
      runAll_eq_filter, runTake_snd_filter]

/-- `next(iter(s), None)` on the empty set is `None`. -/
theorem pick_empty : pick (∅ : Finset Inst) = none := by
  simp [pick]

/-- `next(iter(s), None)` on a singleton is its element. -/
theorem pick_singleton (a : Inst) : pick ({a} : Finset Inst) = some a := by
  simp [pick]

/-- `next(iter(s), None)` on a non-empty set is some element. -/
theorem pick_isSome {s : Finset Inst} (h : s ≠ ∅) :
    (pick s).isSome = true := by
  simp [pick, Finset.nonempty_iff_ne_empty.mpr h]

/-- A filter whose predicate selects exactly one element of the list (present
once) returns that element alone. -/
theorem filter_eq_single {p : Inst → Bool} :
    ∀ (xs : List Inst) (a : Inst), xs.count a = 1 →
      (∀ y ∈ xs, (p y = true ↔ y = a)) → xs.filter p = [a] := by
  intro xs
  induction xs with
  | nil => intro a h _; simp at h
  | cons x rest ih =>
    intro a hcount hiff
    by_cases hxa : x = a
    · subst hxa
      have hpx : p x = true := (hiff x (by simp)).mpr rfl
      have hrest : x ∉ rest := by
        have : rest.count x = 0 := by
          have := hcount
          simp [List.count_cons] at this
          exact this
        exact List.count_eq_zero.mp this
      have hfr : rest.filter p = [] := by
        rw [List.filter_eq_nil_iff]
        intro y hy
        intro hpy
        exact hrest (((hiff y (by simp [hy])).mp hpy) ▸ hy)
      simp [List.filter, hpx, hfr]
    · have hpx : p x = false := by
        rcases Bool.eq_false_or_eq_true (p x) with h | h
        · exact absurd ((hiff x (by simp)).mp h) hxa
        · exact h
      have hcount2 : rest.count a = 1 := by
        simpa [List.count_cons, hxa] using hcount
      have := ih a hcount2 (fun y hy => hiff y (by simp [hy]))
      simp [List.filter, hpx, this]

/-- Walking a successor chain from its head with enough fuel yields the chain:
the walk stops at the last member, whose successor set is empty. -/
theorem seqFrom_chain (m : NbrMap) (first : Inst) :
    ∀ (t : List Inst) (x : Inst) (fuel : Nat), succChain m (x :: t) →
      first ∉ t → (x :: t).length ≤ fuel → seqFrom m first fuel x = x :: t := by
  intro t
  induction t with
  | nil =>
    intro x fuel hc _ hlen
    cases fuel with
    | zero => simp at hlen
    | succ f =>
      simp only [succChain] at hc
      simp [seqFrom, navOneNav, hc, pick_empty]
  | cons y t2 ih =>
    intro x fuel hc hf hlen
    obtain ⟨h1, h2⟩ : m x = {y} ∧ succChain m (y :: t2) := hc
    cases fuel with
    | zero => simp at hlen
    | succ f =>
      have hyf : y ≠ first := fun h => hf (h ▸ List.mem_cons_self y t2)
      have hf2 : first ∉ t2 := fun h => hf (List.mem_cons_of_mem y h)
      have hlen2 : (y :: t2).length ≤ f := by
        simpa [Nat.succ_le_succ_iff] using hlen
      simp [seqFrom, navOneNav, h1, pick_singleton, hyf, ih y f h2 hf2 hlen2]

/-- Walking a successor cycle from `first` with enough fuel yields each member
once: the walk stops when the last member's successor is `first` again. -/
theorem seqFrom_cycle (m : NbrMap) (first : Inst) :
    ∀ (t : List Inst) (x : Inst) (fuel : Nat), succChainTo m first (x :: t) →
      first ∉ t → (x :: t).length ≤ fuel → seqFrom m first fuel x = x :: t := by
  intro t
  induction t with
  | nil =>
    intro x fuel hc _ hlen
    cases fuel with
    | zero => simp at hlen
    | succ f =>
      simp only [succChainTo] at hc
      simp [seqFrom, navOneNav, hc, pick_singleton]
  | cons y t2 ih =>
    intro x fuel hc hf hlen
    obtain ⟨h1, h2⟩ : m x = {y} ∧ succChainTo m first (y :: t2) := hc
    cases fuel with
    | zero => simp at hlen
    | succ f =>
      have hyf : y ≠ first := fun h => hf (h ▸ List.mem_cons_self y t2)
      have hf2 : first ∉ t2 := fun h => hf (List.mem_cons_of_mem y h)
      have hlen2 : (y :: t2).length ≤ f := by
        simpa [Nat.succ_le_succ_iff] using hlen
      simp [seqFrom, navOneNav, h1, pick_singleton, hyf, ih y f h2 hf2 hlen2]

/-- The ordered-set constructor is the identity on duplicate-free input not
meeting the seen set. -/
theorem firstDedupAux_eq_self :
    ∀ (l seen : List Inst), l.Nodup → (∀ y ∈ l, y ∉ seen) →
      firstDedupAux seen l = l := by
  intro l
  induction l with
  | nil => intro seen _ _; rfl
  | cons x rest ih =>
    intro seen hnd hs
    have hx : x ∉ seen := hs x (by simp)
    have hrest : ∀ y ∈ rest, y ∉ x :: seen := by
      intro y hy
      simp only [List.mem_cons, not_or]
      exact ⟨fun h => (List.nodup_cons.mp hnd).1 (h ▸ hy), hs y (by simp [hy])⟩
    simp [firstDedupAux, hx, ih (x :: seen) (List.nodup_cons.mp hnd).2 hrest]

/-- Along a predecessor chain, every member after the head has a singleton
predecessor set. -/
theorem predChainAux_tail (m : NbrMap) :
    ∀ (l : List Inst) (x : Inst), predChainAux m (x :: l) →
      ∀ y ∈ l, ∃ z, m y = {z} := by
  intro l
  induction l with
  | nil => intro x _ y hy; simp at hy
  | cons y t ih =>
    intro x hp w hw
    obtain ⟨h1, h2⟩ : m y = {x} ∧ predChainAux m (y :: t) := hp
    rcases List.mem_cons.mp hw with h | h
    · exact ⟨x, h ▸ h1⟩
    · exact ih y h2 w h

/-- C8: on a set whose members form a linear chain across the conditional
reflexive association, `sort_reflexive` yields the members in
predecessor-first order starting at the member with no predecessor; on a set
forming a single cycle, the walk starts at the set's first member and yields
every member exactly once. -/
theorem c8_sort_reflexive :
    (∀ (predM succM : NbrMap) (xs : List Inst) (x : Inst) (ct : List Inst),
      xs.Perm (x :: ct) → (x :: ct).Nodup →
      predM x = ∅ → predChainAux predM (x :: ct) → succChain succM (x :: ct) →
      sortReflexive xs predM succM xs.length = x :: ct) ∧
    (∀ (predM succM : NbrMap) (xs : List Inst) (x : Inst) (ct : List Inst),
      xs.Perm (x :: ct) → (x :: ct).Nodup → xs.head? = some x →
      (∀ i ∈ xs, predM i ≠ ∅) → succChainTo succM x (x :: ct) →
      sortReflexive xs predM succM xs.length = x :: ct ∧
      (sortReflexive xs predM succM xs.length).Nodup ∧
      (∀ i, i ∈ sortReflexive xs predM succM xs.length ↔ i ∈ xs)) := by
  constructor
  · intro predM succM xs x ct hperm hnodup hpx hpc hsc
    have hlen := hperm.length_eq
    obtain ⟨x0, xr, hxe⟩ : ∃ h t, xs = h :: t := by
      cases xs with
      | nil => simp at hlen
      | cons a l => exact ⟨a, l, rfl⟩
    have hcount : xs.count x = 1 := by
      rw [hperm.count_eq]
      exact List.count_eq_one_of_mem hnodup (by simp)
    have hfilter :
        xs.filter (fun i => (navOneNav predM i).isNone) = [x] := by
      apply filter_eq_single xs x hcount
      intro y hy
      constructor
      · intro hnone
        by_contra hne
        have hyc : y ∈ ct := by
          rcases List.mem_cons.mp (hperm.subset hy) with h | h
          · exact absurd h hne
          · exact h
        obtain ⟨z, hz⟩ := predChainAux_tail predM ct x hpc y hyc
        simp [navOneNav, hz, pick_singleton] at hnone
      · intro h
        subst h
        simp [navOneNav, hpx, pick_empty]
    rw [hxe] at hfilter ⊢
    have hxct : x ∉ ct := (List.nodup_cons.mp hnodup).1
    have hwalk : seqFrom succM x ((x0 :: xr).length) x = x :: ct := by
      apply seqFrom_chain succM x ct x _ hsc hxct
      rw [← hxe, hlen]
    simp only [sortReflexive, hfilter, List.isEmpty_cons, seqGen,
      List.map_cons, List.map_nil, List.flatten, List.append_nil, hwalk,
      Bool.false_eq_true, if_false]
    exact firstDedupAux_eq_self (x :: ct) [] hnodup (by simp)
  · intro predM succM xs x ct hperm hnodup hhead hpred hsc
    have hlen := hperm.length_eq
    obtain ⟨x0, xr, hxe⟩ : ∃ h t, xs = h :: t := by
      cases xs with
      | nil => simp at hlen
      | cons a l => exact ⟨a, l, rfl⟩
    have hx0 : x = x0 := by
      rw [hxe] at hhead
      simpa using hhead.symm
    subst hx0
    have hfilter :
        xs.filter (fun i => (navOneNav predM i).isNone) = [] := by
      rw [List.filter_eq_nil_iff]
      intro y hy hnone
      have := pick_isSome (hpred y hy)
      simp only [navOneNav] at hnone
      rw [Option.isNone_iff_eq_none.mp hnone] at this
      simp at this
    rw [hxe] at hfilter ⊢
    have hxct : x ∉ ct := (List.nodup_cons.mp hnodup).1
    have hwalk : seqFrom succM x ((x :: xr).length) x = x :: ct := by
      apply seqFrom_cycle succM x ct x _ hsc hxct
      rw [← hxe, hlen]
    have hmain : sortReflexive (x :: xr) predM succM (x :: xr).length
        = x :: ct := by
      simp only [sortReflexive, hfilter, List.isEmpty_nil, if_true, seqGen,
        List.map_cons, List.map_nil, List.flatten, List.append_nil, hwalk]
      exact firstDedupAux_eq_self (x :: ct) [] hnodup (by simp)
    refine ⟨hmain, ?_, ?_⟩
    · rw [hmain]; exact hnodup
    · intro i
      rw [hmain, ← hxe]
      exact Iff.trans (Iff.symm hperm.mem_iff) Iff.rfl

/-- C8 witness: the chain 1 → 2 → 3 presented as the set [3, 1, 2] sorts to
[1, 2, 3]. -/
theorem c8_witness :
    sortReflexive [3, 1, 2] pm8 sm8 ([3, 1, 2] : List Inst).length
      = [1, 2, 3] :=
  c8_sort_reflexive.1 pm8 sm8 [3, 1, 2] 1 [2, 3] (by decide) (by decide)
    (by decide) ⟨by decide, by decide, trivial⟩
    ⟨by decide, by decide, show sm8 3 = ∅ by decide⟩

end Pyxtuml





